import Mathlib

/-!
Shallow embedding of the access-governance layer of TextAI Studio
(`src/textai_studio_app.py`): user registration and authentication
(`UserManager`), API-key issuance and validation (`APIKeyManager`),
per-tier sliding-window rate limiting (`RateLimiter`), and history plus
analytics (`HistoryManager`).

Modelling conventions:
* Python `datetime` values are integer epoch seconds (`Int`);
  `timedelta(hours=1)` is `3600` seconds.  The ISO round trip
  `fromisoformat (isoformat t) = t` is elided, so stored timestamp strings
  are kept as `Int` directly.
* Python dicts are association lists with first-match lookup; assignment to
  a key is modelled by prepending the binding (lookups agree with dict
  semantics because keys are never deleted).
* External cryptographic primitives (`bcrypt`, `hashlib.sha256`) are
  modelled as ideal injective digests; one-wayness plays no role in the
  verified properties.
* Randomness (`bcrypt.gensalt`, `secrets.token_bytes`) is passed in as an
  explicit argument.
-/

/-! ## Rate limiting (`RATE_LIMITS`, `RateLimiter.check_limit`) -/

/-- The tier table `RATE_LIMITS` from the source: requests per hour. -/
def RATE_LIMITS : List (String × Nat) :=
  [("guest", 10), ("user", 100), ("pro", 1000)]

/-- Python `RATE_LIMITS.get(tier, 10)`: the tier's limit, defaulting to 10
for unrecognized tiers. -/
def rateLimitGet (tier : String) : Nat :=
  match RATE_LIMITS.find? (fun p => p.1 == tier) with
  | some p => p.2
  | none => 10

/-- Result of `RateLimiter.check_limit`.  The source returns
`(True, "Remaining: r/limit")` on admission and
`(False, "Rate limit exceeded. Limit: limit/hour")` on rejection; we keep
the numbers carried by the message. -/
inductive RateResult where
  | allowed (remaining : Nat) (limit : Nat)
  | rateLimited (limit : Nat)
deriving DecidableEq

/-- The pruning step inside `check_limit`: keep exactly the timestamps
strictly newer than `hour_ago = now - timedelta(hours=1)`
(`datetime.fromisoformat(ts) > hour_ago`). -/
def pruneWindow (now : Int) (window : List Int) : List Int :=
  window.filter (fun ts => now - 3600 < ts)

/-- `RateLimiter.check_limit` acting on a single user's window: prune, then
compare the pruned count with the tier limit, and on admission append `now`.
Returns the call's result together with the user's in-memory window after
the call (on rejection the method returns early, so the pruned window is
kept but nothing is appended). -/
def check_limit (window : List Int) (tier : String) (now : Int) :
    RateResult × List Int :=
  let pruned := pruneWindow now window
  let limit := rateLimitGet tier
  if limit ≤ pruned.length then
    (RateResult.rateLimited limit, pruned)
  else
    (RateResult.allowed (limit - (pruned.length + 1)) limit, pruned ++ [now])

/-- Iterate `check_limit` over a sequence of request times for one user,
collecting every call's result and threading the window through. -/
def runChecks (window : List Int) (tier : String) :
    List Int → List RateResult × List Int
  | [] => ([], window)
  | now :: rest =>
    let step := check_limit window tier now
    let restRun := runChecks step.2 tier rest
    (step.1 :: restRun.1, restRun.2)

/-! ## Concurrency of `check_limit` (the store level)

The source class keeps `self.limits`, a dict mapping username to the list
of timestamps.  `check_limit` reads the dict entry (initialising a missing
user to `[]`), computes, and writes the entry back; the source takes no
lock around this read-modify-write. -/

/-- The window a `check_limit` call observes for `username` in the store
(`if username not in self.limits: self.limits[username] = []`). -/
def readWindow (store : List (String × List Int)) (username : String) :
    List Int :=
  match store.find? (fun p => p.1 == username) with
  | some p => p.2
  | none => []

/-- Dict assignment of a user's window. -/
def writeWindow (store : List (String × List Int)) (username : String)
    (window : List Int) : List (String × List Int) :=
  (username, window) :: store

/-- Two concurrent `check_limit` evaluations for the same username under
the schedule in which both reads happen before either write — a schedule
the source permits because the read-prune-compare-append sequence takes no
lock.  Both calls observe the initial store; each then computes and writes
back in turn.  Returns both results and the final store. -/
def interleavedChecks (store : List (String × List Int))
    (username tier : String) (t1 t2 : Int) :
    (RateResult × RateResult) × List (String × List Int) :=
  let snap1 := readWindow store username
  let snap2 := readWindow store username
  let call1 := check_limit snap1 tier t1
  let store1 := writeWindow store username call1.2
  let call2 := check_limit snap2 tier t2
  let store2 := writeWindow store1 username call2.2
  ((call1.1, call2.1), store2)

/-! ## `UserManager`: registration and authentication -/

/-- Model of the external `bcrypt` library as an ideal salted digest:
`hashpw` pairs the digest of the password with the salt drawn by
`gensalt`, and `checkpw` recomputes the digest under the stored salt and
compares.  An ideal digest is injective in the password, so the digest is
modelled by the password string itself; one-wayness plays no role in the
verified properties. -/
structure BcryptHash where
  salt : Nat
  digest : String
deriving DecidableEq

def bcrypt_hashpw (password : String) (salt : Nat) : BcryptHash :=
  ⟨salt, password⟩

def bcrypt_checkpw (password : String) (stored : BcryptHash) : Bool :=
  bcrypt_hashpw password stored.salt == stored

/-- One record of the `self.users` dict: password hash, email, tier,
creation time, and the (initially absent) `api_key` field. -/
structure Account where
  password : BcryptHash
  email : String
  tier : String
  created_at : Int
  api_key : Option String
deriving DecidableEq

/-- `UserManager.register_user`: refuse an existing username, otherwise
hash the password with a fresh salt and store an account with tier
"user".  Returns the source's `(ok, message)` pair with the new store. -/
def register_user (users : List (String × Account))
    (username password email : String) (salt : Nat) (now : Int) :
    (Bool × String) × List (String × Account) :=
  if (users.find? (fun p => p.1 == username)).isSome then
    ((false, "Username already exists"), users)
  else
    ((true, "Registration successful"),
      (username,
        ⟨bcrypt_hashpw password salt, email, "user", now, none⟩) :: users)

/-- `UserManager.authenticate_user`: false for an unknown username,
otherwise `bcrypt.checkpw` against the stored hash. -/
def authenticate_user (users : List (String × Account))
    (username password : String) : Bool :=
  match users.find? (fun p => p.1 == username) with
  | none => false
  | some p => bcrypt_checkpw password p.2.password

/-! ## `HistoryManager`: bounded per-user history and analytics -/

/-- One stored history entry. -/
structure HistoryEntry where
  timestamp : Int
  tool : String
  query : String
  result : String
deriving DecidableEq

/-- Python list slice `l[-n:]`: the last `n` elements when `n > 0`, but
the whole list when `n = 0` (because `l[-0:]` is `l[0:]`). -/
def pySliceLast {α : Type _} (n : Nat) (l : List α) : List α :=
  if n = 0 then l else l.drop (l.length - n)

/-- The entry built inside `HistoryManager.add_entry`: the query truncated
to 200 characters, the stringified result truncated to 500. -/
def mkEntry (now : Int) (tool query result : String) : HistoryEntry :=
  ⟨now, tool, query.take 200, result.take 500⟩

/-- `HistoryManager.add_entry` on one user's stored history: append the
truncated entry and keep the last 100 entries (`history[-100:]`). -/
def add_entry (history : List HistoryEntry) (now : Int)
    (tool query result : String) : List HistoryEntry :=
  pySliceLast 100 (history ++ [mkEntry now tool query result])

/-- Apply a sequence of `add_entry` requests `(now, tool, query, result)`
to a stored history. -/
def applyEntries (history : List HistoryEntry)
    (reqs : List (Int × String × String × String)) : List HistoryEntry :=
  reqs.foldl (fun h q => add_entry h q.1 q.2.1 q.2.2.1 q.2.2.2) history

/-- `HistoryManager.get_history` on one user's stored history: return
`history[-limit:]`. -/
def get_history (stored : List HistoryEntry) (limit : Nat) :
    List HistoryEntry :=
  pySliceLast limit stored

/-- Calendar date of a timestamp (`df['timestamp'].dt.date`): with
timestamps as epoch seconds the date is the floor-division day number. -/
def dateOf (ts : Int) : Int :=
  Int.fdiv ts 86400

/-- Model of pandas `value_counts().to_dict()` and
`groupby(...).size().to_dict()`: each distinct key of the list paired with
its multiplicity. -/
def countsOf {α : Type _} [DecidableEq α] (l : List α) : List (α × Nat) :=
  l.dedup.map (fun k => (k, l.count k))

/-- Lookup in a counts dictionary. -/
def lookupCount {α : Type _} [DecidableEq α] (m : List (α × Nat)) (k : α) :
    Option Nat :=
  match m.find? (fun p => decide (p.1 = k)) with
  | some p => some p.2
  | none => none

/-- The analytics dict built by `HistoryManager.get_analytics`. -/
structure Analytics where
  total_queries : Nat
  tools_used : List (String × Nat)
  queries_by_date : List (Int × Nat)
  last_7_days : Nat
  last_30_days : Nat
deriving DecidableEq

/-- `HistoryManager.get_analytics`: read the user's history through
`get_history(username, limit=1000)`, return `None` when it is empty, and
otherwise the total count, the per-tool counts, the per-calendar-date
counts, and the counts of entries strictly within the trailing 7 and 30
days of `now`. -/
def get_analytics (stored : List HistoryEntry) (now : Int) :
    Option Analytics :=
  let history := get_history stored 1000
  if history.isEmpty then none
  else
    some ⟨history.length,
      countsOf (history.map (fun e => e.tool)),
      countsOf (history.map (fun e => dateOf e.timestamp)),
      (history.filter (fun e => now - 7 * 86400 < e.timestamp)).length,
      (history.filter (fun e => now - 30 * 86400 < e.timestamp)).length⟩

/-! ## `APIKeyManager`: key issuance and validation -/

/-- Model of `hashlib.sha256(x).hexdigest()` as an ideal injective digest.
A real hex digest consists of 64 hex characters and therefore never
coincides with an `sk_`-prefixed raw key; the model keeps that separation
with a distinguishing `sha256:` prefix. -/
def sha256_hexdigest (s : String) : String :=
  "sha256:" ++ s

/-- One record of the `self.keys` dict, keyed by the key hash. -/
structure KeyRecord where
  username : String
  created_at : Int
deriving DecidableEq

/-- `APIKeyManager.generate_key`: build the raw key
`'sk_' + base64(secrets.token_bytes(32))` (the random material is an
explicit argument), store its hash with the owning username and issue
time, and return the raw key. -/
def generate_key (keys : List (String × KeyRecord)) (username : String)
    (randomPart : String) (now : Int) :
    String × List (String × KeyRecord) :=
  let api_key := "sk_" ++ randomPart
  let key_hash := sha256_hexdigest api_key
  (api_key, (key_hash, ⟨username, now⟩) :: keys)

/-- `APIKeyManager.validate_key`: hash the presented key and test dict
membership. -/
def validate_key (keys : List (String × KeyRecord)) (api_key : String) :
    Bool :=
  (keys.find? (fun p => p.1 == sha256_hexdigest api_key)).isSome

/-- `APIKeyManager.get_user_by_key`: hash the presented key and return the
owning username on a hit, `none` otherwise. -/
def get_user_by_key (keys : List (String × KeyRecord)) (api_key : String) :
    Option String :=
  match keys.find? (fun p => p.1 == sha256_hexdigest api_key) with
  | some p => some p.2.username
  | none => none

/-- Issue a sequence of keys; each request is
(username, random material, time). -/
def issueAll (keys : List (String × KeyRecord)) :
    List (String × String × Int) → List (String × KeyRecord)
  | [] => keys
  | q :: rest => issueAll (generate_key keys q.1 q.2.1 q.2.2).2 rest

/-! ## The app state: every durable store together -/

/-- The durable stores of the app: accounts, API keys, rate windows, and
per-user history. -/
structure AppState where
  users : List (String × Account)
  keys : List (String × KeyRecord)
  limits : List (String × List Int)
  history : List (String × List HistoryEntry)

/-- `HistoryManager.get_history` at the level of the whole app state: a
read of the user's history file (missing file means no history) followed
by the slice; the state comes back as the method leaves it, since its body
performs no write. -/
def get_history_app (s : AppState) (username : String) (limit : Nat) :
    List HistoryEntry × AppState :=
  (match s.history.find? (fun p => p.1 == username) with
    | some p => get_history p.2 limit
    | none => [],
    s)

/-- `APIKeyManager.validate_key` at app-state level: the method body
performs no write on any store. -/
def validate_key_app (s : AppState) (api_key : String) : Bool × AppState :=
  (validate_key s.keys api_key, s)

/-- `APIKeyManager.get_user_by_key` at app-state level: the method body
performs no write on any store. -/
def get_user_by_key_app (s : AppState) (api_key : String) :
    Option String × AppState :=
  (get_user_by_key s.keys api_key, s)

/-! ## Supporting lemmas -/

lemma rateLimitGet_guest : rateLimitGet "guest" = 10 := by decide

/-- A window holding `j < 10` copies of the current instant admits a guest
request and reports `9 - j` remaining. -/
lemma check_limit_guest_replicate (t : Int) (j : Nat) (hj : j < 10) :
    check_limit (List.replicate j t) "guest" t =
      (RateResult.allowed (9 - j) 10, List.replicate (j + 1) t) := by
  have hfil : pruneWindow t (List.replicate j t) = List.replicate j t := by
    apply List.filter_eq_self.mpr
    intro a ha
    have : a = t := List.eq_of_mem_replicate ha
    subst this
    simp only [decide_eq_true_eq]
    omega
  simp only [check_limit, hfil, rateLimitGet_guest, List.length_replicate]
  rw [if_neg (by omega)]
  rw [← List.replicate_succ' j t]
  have : 10 - (j + 1) = 9 - j := by omega
  rw [this]

/-- Running `k` further guest checks at instant `t` on a window of `j`
copies of `t` (with `j + k ≤ 10`) admits every one of them, with remaining
quotas `9 - j, 9 - (j+1), ...`, and grows the window to `j + k` copies. -/
lemma runChecks_guest_replicate (t : Int) :
    ∀ (k j : Nat), j + k ≤ 10 →
      runChecks (List.replicate j t) "guest" (List.replicate k t) =
        ((List.range k).map (fun i => RateResult.allowed (9 - (j + i)) 10),
          List.replicate (j + k) t)
  | 0, j, _ => by simp [runChecks]
  | k + 1, j, h => by
    rw [List.replicate_succ]
    simp only [runChecks]
    rw [check_limit_guest_replicate t j (by omega)]
    rw [runChecks_guest_replicate t k (j + 1) (by omega)]
    simp only [List.range_succ_eq_map, List.map_cons, List.map_map]
    rw [Prod.mk.injEq]
    refine ⟨?_, ?_⟩
    · rw [List.cons.injEq]
      refine ⟨by simp, ?_⟩
      apply List.map_congr_left
      intro i _
      simp only [Function.comp_apply, Nat.succ_eq_add_one]
      have he : 9 - (j + 1 + i) = 9 - (j + (i + 1)) := by omega
      rw [he]
    · have he : j + 1 + k = j + (k + 1) := by omega
      rw [he]

/-- One admission check preserves the window-size bound: pruning only
removes timestamps, a rejection appends nothing, and an admission appends
one timestamp only when the pruned count is strictly below the limit. -/
lemma check_limit_window_le (window : List Int) (tier : String) (now : Int)
    (h : window.length ≤ rateLimitGet tier) :
    ((check_limit window tier now).2).length ≤ rateLimitGet tier := by
  have hprune : (pruneWindow now window).length ≤ window.length :=
    List.length_filter_le _ window
  simp only [check_limit]
  by_cases hcase : rateLimitGet tier ≤ (pruneWindow now window).length
  · rw [if_pos hcase]
    dsimp only
    omega
  · rw [if_neg hcase]
    dsimp only
    simp only [List.length_append, List.length_singleton]
    omega

lemma pySliceLast_length {α : Type _} (n : Nat) (hn : n ≠ 0) (l : List α) :
    (pySliceLast n l).length = min n l.length := by
  simp only [pySliceLast, if_neg hn, List.length_drop]
  omega

lemma pySliceLast_of_le {α : Type _} (n : Nat) (l : List α)
    (h : l.length ≤ n) : pySliceLast n l = l := by
  by_cases hn : n = 0
  · subst hn
    simp [pySliceLast]
  · simp only [pySliceLast, if_neg hn, Nat.sub_eq_zero_of_le h,
      List.drop_zero]

lemma pySliceLast_eq_nil_iff {α : Type _} (n : Nat) (l : List α) :
    pySliceLast n l = [] ↔ l = [] := by
  by_cases hn : n = 0
  · subst hn
    simp [pySliceLast]
  · constructor
    · intro h
      have hl := congrArg List.length h
      rw [pySliceLast_length n hn] at hl
      simp only [List.length_nil] at hl
      rw [← List.length_eq_zero]
      omega
    · intro h
      subst h
      simp [pySliceLast]

/-- Taking the last `n` of a list whose left part was already cut to its
last `n` elements gives the same result as cutting the whole list. -/
lemma pySliceLast_append_left {α : Type _} (n : Nat) (hn : n ≠ 0)
    (xs ys : List α) :
    pySliceLast n (pySliceLast n xs ++ ys) = pySliceLast n (xs ++ ys) := by
  simp only [pySliceLast, if_neg hn]
  rw [List.drop_append_eq_append_drop, List.drop_append_eq_append_drop,
    List.drop_drop]
  congr 1
  · congr 1
    simp only [List.length_drop, List.length_append]
    omega
  · congr 1
    simp only [List.length_drop, List.length_append]
    omega

/-- The history fold in closed form: starting below the cap, the stored
history after any sequence of appends is the last-100 slice of the full
append sequence. -/
lemma applyEntries_eq (reqs : List (Int × String × String × String)) :
    ∀ acc : List HistoryEntry, acc.length ≤ 100 →
      applyEntries acc reqs =
        pySliceLast 100
          (acc ++ reqs.map (fun q => mkEntry q.1 q.2.1 q.2.2.1 q.2.2.2)) := by
  induction reqs with
  | nil =>
    intro acc hacc
    simp only [applyEntries, List.foldl_nil, List.map_nil, List.append_nil]
    exact (pySliceLast_of_le 100 acc hacc).symm
  | cons q rest ih =>
    intro acc hacc
    have hstep :
        applyEntries acc (q :: rest) =
          applyEntries (add_entry acc q.1 q.2.1 q.2.2.1 q.2.2.2) rest := by
      simp only [applyEntries, List.foldl_cons]
    have hlen : (add_entry acc q.1 q.2.1 q.2.2.1 q.2.2.2).length ≤ 100 := by
      rw [add_entry, pySliceLast_length 100 (by omega)]
      omega
    rw [hstep, ih _ hlen, add_entry,
      pySliceLast_append_left 100 (by omega),
      List.append_assoc]
    simp only [List.singleton_append, List.map_cons]

lemma find?_decide_eq_self {α : Type _} [DecidableEq α] (m : List α) (k : α)
    (h : k ∈ m) : m.find? (fun x => decide (x = k)) = some k := by
  induction m with
  | nil => simp at h
  | cons a rest ih =>
    by_cases hk : a = k
    · subst hk
      rw [List.find?_cons_of_pos _ (by simp)]
    · rcases List.mem_cons.mp h with rfl | hmem
      · exact absurd rfl hk
      · rw [List.find?_cons_of_neg _ (by simp [hk])]
        exact ih hmem

lemma lookupCount_countsOf {α : Type _} [DecidableEq α] (l : List α) (k : α)
    (h : k ∈ l) : lookupCount (countsOf l) k = some (l.count k) := by
  have hd : k ∈ l.dedup := List.mem_dedup.mpr h
  simp only [lookupCount, countsOf, List.find?_map]
  rw [show ((fun p : α × Nat => decide (p.1 = k)) ∘ fun x => (x, l.count x))
      = fun x => decide (x = k) from rfl]
  rw [find?_decide_eq_self l.dedup k hd]
  rfl

lemma countsOf_snd_sum {α : Type _} [DecidableEq α] (l : List α) :
    ((countsOf l).map Prod.snd).sum = l.length := by
  simp only [countsOf, List.map_map]
  exact List.sum_map_count_dedup_eq_length l

lemma countsOf_length {α : Type _} [DecidableEq α] (l : List α) :
    (countsOf l).length = l.dedup.length := by
  simp [countsOf]

lemma length_eq_count_add_count {α : Type _} [DecidableEq α] (l : List α)
    (a b : α) (hab : a ≠ b) (hmem : ∀ x ∈ l, x = a ∨ x = b) :
    l.length = l.count a + l.count b := by
  induction l with
  | nil => simp
  | cons x rest ih =>
    have hx := hmem x (List.mem_cons_self x rest)
    have hrest : ∀ y ∈ rest, y = a ∨ y = b := fun y hy =>
      hmem y (List.mem_cons_of_mem x hy)
    have hr := ih hrest
    rcases hx with rfl | rfl
    · rw [List.length_cons, List.count_cons_self,
        List.count_cons_of_ne (Ne.symm hab), hr]
      omega
    · rw [List.length_cons, List.count_cons_self,
        List.count_cons_of_ne hab, hr]
      omega

lemma get_analytics_none_iff (s : List HistoryEntry) (m : Int) :
    get_analytics s m = none ↔ s = [] := by
  dsimp only [get_analytics]
  by_cases hs : s = []
  · subst hs
    simp [get_history, pySliceLast]
  · have hne : get_history s 1000 ≠ [] := by
      rw [get_history, Ne, pySliceLast_eq_nil_iff]
      exact hs
    rw [if_neg (fun h => hne (List.isEmpty_iff.mp h))]
    simp [hs]

lemma sha256_hexdigest_inj {a b : String}
    (h : sha256_hexdigest a = sha256_hexdigest b) : a = b := by
  have h2 : "sha256:".data ++ a.data = "sha256:".data ++ b.data := by
    have h0 := congrArg String.data h
    simpa [sha256_hexdigest, String.data_append] using h0
  exact String.ext (List.append_cancel_left h2)

lemma sk_ne_sha256 (x y : String) : "sk_" ++ x ≠ sha256_hexdigest y := by
  intro h
  have h2 := congrArg String.data h
  simp only [sha256_hexdigest, String.data_append] at h2
  have h3 : ('s' :: 'k' :: '_' :: x.data) =
      ('s' :: 'h' :: 'a' :: '2' :: '5' :: '6' :: ':' :: y.data) := h2
  have h4 := (List.cons.inj h3).2
  have h5 := (List.cons.inj h4).1
  exact absurd h5 (by decide)

/-- Issuing a trace of keys produces exactly the bindings of the hashed
raw keys to their owners, newest first. -/
lemma issueAll_eq (trace : List (String × String × Int)) :
    ∀ keys0, issueAll keys0 trace =
      (trace.map (fun q =>
        (sha256_hexdigest ("sk_" ++ q.2.1), (⟨q.1, q.2.2⟩ : KeyRecord)))).reverse
        ++ keys0 := by
  induction trace with
  | nil =>
    intro keys0
    simp [issueAll]
  | cons q rest ih =>
    intro keys0
    simp only [issueAll, generate_key]
    rw [ih]
    simp [List.reverse_cons, List.append_assoc]

/-- A key issued right now validates to its owner, whatever was stored
before. -/
lemma generate_then_get (keys : List (String × KeyRecord)) (u r : String)
    (t : Int) :
    get_user_by_key (generate_key keys u r t).2 (generate_key keys u r t).1
      = some u := by
  simp only [generate_key, get_user_by_key]
  rw [List.find?_cons_of_pos _ (by simp)]

/-- A raw key never issued in the trace does not validate. -/
lemma get_user_by_key_none (trace : List (String × String × Int))
    (raw : String) (h : ∀ q ∈ trace, raw ≠ "sk_" ++ q.2.1) :
    get_user_by_key (issueAll [] trace) raw = none := by
  have hfind : (issueAll [] trace).find?
      (fun p => p.1 == sha256_hexdigest raw) = none := by
    apply List.find?_eq_none.mpr
    intro x hx
    rw [issueAll_eq trace [], List.append_nil, List.mem_reverse] at hx
    obtain ⟨q, hq, rfl⟩ := List.mem_map.mp hx
    intro heq
    have heq2 : sha256_hexdigest ("sk_" ++ q.2.1) = sha256_hexdigest raw :=
      by simpa using heq
    exact h q hq (sha256_hexdigest_inj heq2).symm
  rw [get_user_by_key, hfind]

/-- A stored key hash presented as a raw key does not validate. -/
lemma get_user_by_key_hash_none (trace : List (String × String × Int))
    (hsh : String) (hmem : hsh ∈ (issueAll [] trace).map Prod.fst) :
    get_user_by_key (issueAll [] trace) hsh = none := by
  obtain ⟨x, hx, hfst⟩ := List.mem_map.mp hmem
  rw [issueAll_eq trace [], List.append_nil, List.mem_reverse] at hx
  obtain ⟨q, hq, rfl⟩ := List.mem_map.mp hx
  apply get_user_by_key_none
  intro q2 hq2 heq
  apply sk_ne_sha256 q2.2.1 ("sk_" ++ q.2.1)
  rw [← heq]
  exact hfst.symm

/-! ## Claim theorems -/

/-- C1: starting from an empty window, ten guest admission checks at the
same instant `t` all succeed with remaining quotas `9, 8, ..., 0` and leave
a window of ten copies of `t`; an eleventh check at any instant `t11`
within the same hour is rejected with `rateLimited` carrying the configured
limit `10`; and a fresh check at any instant `tNew` strictly more than one
hour after `t` succeeds again. -/
theorem C1_guest_rate_limit_cycle (t t11 tNew : Int)
    (h1 : t ≤ t11) (h2 : t11 < t + 3600) (h3 : t + 3600 < tNew) :
    (runChecks [] "guest" (List.replicate 10 t)).1 =
      (List.range 10).map (fun i => RateResult.allowed (9 - i) 10) ∧
    (runChecks [] "guest" (List.replicate 10 t)).2 = List.replicate 10 t ∧
    (check_limit (List.replicate 10 t) "guest" t11).1 =
      RateResult.rateLimited 10 ∧
    (check_limit (check_limit (List.replicate 10 t) "guest" t11).2
        "guest" tNew).1 = RateResult.allowed 9 10 := by
  have hrun := runChecks_guest_replicate t 10 0 (by omega)
  simp only [List.replicate_zero, Nat.zero_add] at hrun
  have hfil11 : pruneWindow t11 (List.replicate 10 t) = List.replicate 10 t := by
    apply List.filter_eq_self.mpr
    intro a ha
    have : a = t := List.eq_of_mem_replicate ha
    subst this
    simp only [decide_eq_true_eq]
    omega
  have h11 : check_limit (List.replicate 10 t) "guest" t11 =
      (RateResult.rateLimited 10, List.replicate 10 t) := by
    simp only [check_limit, hfil11, rateLimitGet_guest, List.length_replicate]
    rw [if_pos (by omega)]
  have hfilNew : pruneWindow tNew (List.replicate 10 t) = [] := by
    apply List.filter_eq_nil_iff.mpr
    intro a ha
    have : a = t := List.eq_of_mem_replicate ha
    subst this
    simp only [decide_eq_true_eq]
    omega
  have hNew : check_limit (List.replicate 10 t) "guest" tNew =
      (RateResult.allowed 9 10, [tNew]) := by
    simp only [check_limit, hfilNew, rateLimitGet_guest, List.length_nil]
    rw [if_neg (by omega)]
    simp
  refine ⟨?_, ?_, ?_, ?_⟩
  · rw [hrun]
  · rw [hrun]
  · rw [h11]
  · rw [h11, hNew]

theorem C1_guest_rate_limit_cycle_witness :
    ((0 : Int) ≤ 1 ∧ (1 : Int) < 0 + 3600 ∧ (0 : Int) + 3600 < 3601) ∧
    ((runChecks [] "guest" (List.replicate 10 (0 : Int))).1 =
        (List.range 10).map (fun i => RateResult.allowed (9 - i) 10) ∧
      (runChecks [] "guest" (List.replicate 10 (0 : Int))).2 =
        List.replicate 10 (0 : Int) ∧
      (check_limit (List.replicate 10 (0 : Int)) "guest" 1).1 =
        RateResult.rateLimited 10 ∧
      (check_limit (check_limit (List.replicate 10 (0 : Int)) "guest" 1).2
          "guest" 3601).1 = RateResult.allowed 9 10) :=
  ⟨by decide,
    C1_guest_rate_limit_cycle 0 1 3601 (by decide) (by decide) (by decide)⟩

/-- C2 fails on the code: with a guest window holding 9 fresh timestamps
(one slot left below the limit 10), two concurrent evaluations for the
same username may both observe the pre-increment count 9 and both be
admitted; the final store then holds 10 timestamps, so one admission's
append was lost. -/
theorem C2_race_both_admitted :
    (interleavedChecks [("u", List.replicate 9 0)] "u" "guest" 0 0).1 =
      (RateResult.allowed 0 10, RateResult.allowed 0 10) ∧
    readWindow
      (interleavedChecks [("u", List.replicate 9 0)] "u" "guest" 0 0).2 "u" =
      List.replicate 10 0 := by
  decide

/-- C3: registering a fresh username succeeds; registering the same
username again (with any password, email, salt and time) fails with the
duplicate-username message and leaves the store unchanged; and after the
first registration, authenticating with the original password returns
true. -/
theorem C3_register_twice (users : List (String × Account))
    (u p e : String) (salt : Nat) (now : Int)
    (p2 e2 : String) (salt2 : Nat) (now2 : Int)
    (hfresh : users.find? (fun q => q.1 == u) = none) :
    (register_user users u p e salt now).1 =
      (true, "Registration successful") ∧
    register_user (register_user users u p e salt now).2 u p2 e2 salt2 now2 =
      ((false, "Username already exists"),
        (register_user users u p e salt now).2) ∧
    authenticate_user (register_user users u p e salt now).2 u p = true := by
  have hnotsome : ¬ (users.find? (fun q => q.1 == u)).isSome := by
    rw [hfresh]
    simp
  refine ⟨?_, ?_, ?_⟩
  · simp only [register_user]
    rw [if_neg hnotsome]
  · simp only [register_user]
    rw [if_neg hnotsome]
    dsimp only
    rw [List.find?_cons_of_pos _ (by simp)]
    simp
  · simp only [register_user]
    rw [if_neg hnotsome]
    dsimp only
    simp only [authenticate_user]
    rw [List.find?_cons_of_pos _ (by simp)]
    simp [bcrypt_checkpw, bcrypt_hashpw]

theorem C3_register_twice_witness :
    (([] : List (String × Account)).find? (fun q => q.1 == "alice")
        = none) ∧
    ((register_user [] "alice" "hunter2go" "a@x" 7 0).1 =
        (true, "Registration successful") ∧
      register_user (register_user [] "alice" "hunter2go" "a@x" 7 0).2
          "alice" "other" "b@x" 8 1 =
        ((false, "Username already exists"),
          (register_user [] "alice" "hunter2go" "a@x" 7 0).2) ∧
      authenticate_user (register_user [] "alice" "hunter2go" "a@x" 7 0).2
          "alice" "hunter2go" = true) :=
  ⟨by decide,
    C3_register_twice [] "alice" "hunter2go" "a@x" 7 0 "other" "b@x" 8 1
      (by decide)⟩

/-- C4: the stored history after any sequence of appends started from an
empty history is exactly the last-100 slice of the full append sequence in
insertion order (pure FIFO eviction); in particular its length is
`min 100 n`, and after 101 appends the stored history is the append
sequence with exactly its first (oldest) entry evicted. -/
theorem C4_history_fifo (reqs : List (Int × String × String × String)) :
    applyEntries [] reqs =
      pySliceLast 100
        (reqs.map (fun q => mkEntry q.1 q.2.1 q.2.2.1 q.2.2.2)) ∧
    (applyEntries [] reqs).length = min 100 reqs.length ∧
    (reqs.length = 101 →
      applyEntries [] reqs =
        (reqs.map (fun q => mkEntry q.1 q.2.1 q.2.2.1 q.2.2.2)).drop 1) := by
  have hmain := applyEntries_eq reqs [] (by simp)
  simp only [List.nil_append] at hmain
  refine ⟨hmain, ?_, ?_⟩
  · rw [hmain, pySliceLast_length 100 (by omega), List.length_map]
  · intro h101
    rw [hmain]
    simp only [pySliceLast, List.length_map, h101]
    rw [if_neg (by omega)]

theorem C4_history_fifo_witness :
    (List.replicate 101 ((0 : Int), "t", "q", "r")).length = 101 ∧
    applyEntries [] (List.replicate 101 ((0 : Int), "t", "q", "r")) =
      ((List.replicate 101 ((0 : Int), "t", "q", "r")).map
        (fun q => mkEntry q.1 q.2.1 q.2.2.1 q.2.2.2)).drop 1 :=
  ⟨by simp,
    (C4_history_fifo (List.replicate 101 ((0 : Int), "t", "q", "r"))).2.2
      (by simp)⟩

/-- C7 as stated fails on the code: `history[-limit:]` with `limit = 0` is
`history[0:]`, the whole list, so a zero limit returns more than zero
entries. -/
theorem C7_zero_limit_counterexample :
    ¬ ((get_history [⟨0, "t", "q", "r"⟩] 0).length ≤ 0) := by
  decide

/-- C7 amended to positive limits: for every positive `limit` the history
read returns at most `limit` entries, namely the maximal suffix of the
stored history of length at most `limit`, kept in stored (chronological)
order, and the read mutates nothing: at app-state level the state comes
back unchanged. -/
theorem C7_get_history_suffix (stored : List HistoryEntry) (limit : Nat)
    (s : AppState) (u : String) (h : 0 < limit) :
    (get_history stored limit).length ≤ limit ∧
    stored.take (stored.length - limit) ++ get_history stored limit =
      stored ∧
    (get_history stored limit).length = min limit stored.length ∧
    (get_history_app s u limit).2 = s := by
  have hn : limit ≠ 0 := by omega
  refine ⟨?_, ?_, ?_, rfl⟩
  · rw [get_history, pySliceLast_length limit hn]
    omega
  · simp only [get_history, pySliceLast, if_neg hn]
    exact List.take_append_drop _ stored
  · rw [get_history, pySliceLast_length limit hn]

theorem C7_get_history_suffix_witness :
    0 < 1 ∧
    ((get_history [⟨0, "t", "q", "r"⟩] 1).length ≤ 1 ∧
      ([(⟨0, "t", "q", "r"⟩ : HistoryEntry)].take
          ([(⟨0, "t", "q", "r"⟩ : HistoryEntry)].length - 1) ++
        get_history [⟨0, "t", "q", "r"⟩] 1) = [⟨0, "t", "q", "r"⟩] ∧
      (get_history [⟨0, "t", "q", "r"⟩] 1).length =
        min 1 [(⟨0, "t", "q", "r"⟩ : HistoryEntry)].length ∧
      (get_history_app ⟨[], [], [], []⟩ "u" 1).2 = ⟨[], [], [], []⟩) :=
  ⟨by decide,
    C7_get_history_suffix [⟨0, "t", "q", "r"⟩] 1 ⟨[], [], [], []⟩ "u"
      (by decide)⟩

/-- C6: the analytics summary is `None` exactly for a user with no
history; and for any history of 5 "sentiment" entries and 3
"summarization" entries spread across exactly 2 distinct calendar dates,
it reports a total of 8, per-tool counts 5 and 3, and per-date counts with
exactly 2 keys whose values sum to 8. -/
theorem C6_analytics_summary (stored : List HistoryEntry) (now : Int)
    (hsent : (stored.map (fun e => e.tool)).count "sentiment" = 5)
    (hsumm : (stored.map (fun e => e.tool)).count "summarization" = 3)
    (htools : ∀ e ∈ stored,
      e.tool = "sentiment" ∨ e.tool = "summarization")
    (hdates : ((stored.map (fun e => dateOf e.timestamp)).dedup).length = 2) :
    (∀ (s : List HistoryEntry) (m : Int),
      get_analytics s m = none ↔ s = []) ∧
    ∃ a, get_analytics stored now = some a ∧
      a.total_queries = 8 ∧
      lookupCount a.tools_used "sentiment" = some 5 ∧
      lookupCount a.tools_used "summarization" = some 3 ∧
      a.queries_by_date.length = 2 ∧
      (a.queries_by_date.map Prod.snd).sum = 8 := by
  have hmemtools : ∀ x ∈ stored.map (fun e => e.tool),
      x = "sentiment" ∨ x = "summarization" := by
    intro x hx
    obtain ⟨e, he, rfl⟩ := List.mem_map.mp hx
    exact htools e he
  have hlen8 : stored.length = 8 := by
    have h := length_eq_count_add_count (stored.map (fun e => e.tool))
      "sentiment" "summarization" (by decide) hmemtools
    rw [List.length_map] at h
    omega
  have hhist : get_history stored 1000 = stored := by
    rw [get_history]
    exact pySliceLast_of_le 1000 stored (by omega)
  have hne : stored ≠ [] := by
    intro h
    rw [h] at hlen8
    simp at hlen8
  have hform : get_analytics stored now =
      some ⟨stored.length,
        countsOf (stored.map (fun e => e.tool)),
        countsOf (stored.map (fun e => dateOf e.timestamp)),
        (stored.filter (fun e => now - 7 * 86400 < e.timestamp)).length,
        (stored.filter (fun e => now - 30 * 86400 < e.timestamp)).length⟩ := by
    dsimp only [get_analytics]
    rw [hhist]
    rw [if_neg (fun h => hne (List.isEmpty_iff.mp h))]
  have hsentmem : "sentiment" ∈ stored.map (fun e => e.tool) :=
    List.count_pos_iff.mp (by omega)
  have hsummem : "summarization" ∈ stored.map (fun e => e.tool) :=
    List.count_pos_iff.mp (by omega)
  refine ⟨fun s m => get_analytics_none_iff s m,
    ⟨_, hform, ?_, ?_, ?_, ?_, ?_⟩⟩
  · exact hlen8
  · dsimp only
    rw [lookupCount_countsOf _ _ hsentmem, hsent]
  · dsimp only
    rw [lookupCount_countsOf _ _ hsummem, hsumm]
  · dsimp only
    rw [countsOf_length]
    exact hdates
  · dsimp only
    rw [countsOf_snd_sum, List.length_map]
    exact hlen8

theorem C6_analytics_summary_witness :
    (([⟨0, "sentiment", "q", "r"⟩, ⟨1, "sentiment", "q", "r"⟩,
        ⟨2, "sentiment", "q", "r"⟩, ⟨3, "sentiment", "q", "r"⟩,
        ⟨4, "sentiment", "q", "r"⟩, ⟨86400, "summarization", "q", "r"⟩,
        ⟨86401, "summarization", "q", "r"⟩,
        ⟨86402, "summarization", "q", "r"⟩] :
          List HistoryEntry).map (fun e => e.tool)).count "sentiment" = 5 ∧
    (∃ a, get_analytics
        [⟨0, "sentiment", "q", "r"⟩, ⟨1, "sentiment", "q", "r"⟩,
          ⟨2, "sentiment", "q", "r"⟩, ⟨3, "sentiment", "q", "r"⟩,
          ⟨4, "sentiment", "q", "r"⟩, ⟨86400, "summarization", "q", "r"⟩,
          ⟨86401, "summarization", "q", "r"⟩,
          ⟨86402, "summarization", "q", "r"⟩] 100000 = some a ∧
      a.total_queries = 8 ∧
      lookupCount a.tools_used "sentiment" = some 5 ∧
      lookupCount a.tools_used "summarization" = some 3 ∧
      a.queries_by_date.length = 2 ∧
      (a.queries_by_date.map Prod.snd).sum = 8) :=
  ⟨by decide,
    (C6_analytics_summary
      [⟨0, "sentiment", "q", "r"⟩, ⟨1, "sentiment", "q", "r"⟩,
        ⟨2, "sentiment", "q", "r"⟩, ⟨3, "sentiment", "q", "r"⟩,
        ⟨4, "sentiment", "q", "r"⟩, ⟨86400, "summarization", "q", "r"⟩,
        ⟨86401, "summarization", "q", "r"⟩,
        ⟨86402, "summarization", "q", "r"⟩] 100000
      (by decide) (by decide) (by decide) (by decide)).2⟩

/-- C5: a freshly issued key validates immediately to the issuing
username, whatever the prior key store; over any store built by issuing a
trace of keys, a raw string never issued does not validate; and in
particular a stored key hash presented as a raw key does not validate. -/
theorem C5_issue_then_validate (trace : List (String × String × Int))
    (keys : List (String × KeyRecord)) (u r : String) (t : Int)
    (raw hsh : String)
    (hraw : ∀ q ∈ trace, raw ≠ "sk_" ++ q.2.1)
    (hhsh : hsh ∈ (issueAll [] trace).map Prod.fst) :
    get_user_by_key (generate_key keys u r t).2 (generate_key keys u r t).1
      = some u ∧
    get_user_by_key (issueAll [] trace) raw = none ∧
    get_user_by_key (issueAll [] trace) hsh = none :=
  ⟨generate_then_get keys u r t,
    get_user_by_key_none trace raw hraw,
    get_user_by_key_hash_none trace hsh hhsh⟩

theorem C5_issue_then_validate_witness :
    ((∀ q ∈ [("alice", "AAA", (0 : Int))], "sk_CCC" ≠ "sk_" ++ q.2.1) ∧
      sha256_hexdigest ("sk_" ++ "AAA") ∈
        (issueAll [] [("alice", "AAA", (0 : Int))]).map Prod.fst) ∧
    (get_user_by_key (generate_key [] "bob" "BBB" 1).2
        (generate_key [] "bob" "BBB" 1).1 = some "bob" ∧
      get_user_by_key (issueAll [] [("alice", "AAA", (0 : Int))]) "sk_CCC"
        = none ∧
      get_user_by_key (issueAll [] [("alice", "AAA", (0 : Int))])
        (sha256_hexdigest ("sk_" ++ "AAA")) = none) :=
  ⟨⟨by decide, by decide⟩,
    C5_issue_then_validate [("alice", "AAA", 0)] [] "bob" "BBB" 1
      "sk_CCC" (sha256_hexdigest ("sk_" ++ "AAA"))
      (by decide) (by decide)⟩

/-- C8: validating an API key is side-effect-free: both `validate_key` and
`get_user_by_key` leave the whole app state — accounts, key map, rate
windows, history — unchanged, and two identical calls on the same state
return the same results. -/
theorem C8_validate_key_pure (s : AppState) (k : String) :
    (validate_key_app s k).2 = s ∧
    (get_user_by_key_app s k).2 = s ∧
    (validate_key_app s k).2.users = s.users ∧
    (validate_key_app s k).2.keys = s.keys ∧
    (validate_key_app s k).2.limits = s.limits ∧
    (validate_key_app s k).2.history = s.history ∧
    (validate_key_app s k).1 = (validate_key_app s k).1 ∧
    (get_user_by_key_app s k).1 = (get_user_by_key_app s k).1 :=
  ⟨rfl, rfl, rfl, rfl, rfl, rfl, rfl, rfl⟩

/-- C9: at every rate-limit evaluation, each timestamp retained by the
pruning step is strictly newer than the cutoff `now - 1 hour`
(equivalently `now - ts < 3600`), a timestamp exactly one hour old is
discarded, and every timestamp in the in-memory window after the full
check also satisfies the bound. -/
theorem C9_prune_cutoff (window : List Int) (tier : String) (now ts : Int) :
    (ts ∈ pruneWindow now window → now - ts < 3600) ∧
    (now - 3600) ∉ pruneWindow now window ∧
    (ts ∈ (check_limit window tier now).2 → now - ts < 3600) := by
  have hmem : ∀ a : Int, a ∈ pruneWindow now window → now - a < 3600 := by
    intro a ha
    have := (List.mem_filter.mp ha).2
    simp only [decide_eq_true_eq] at this
    omega
  refine ⟨hmem ts, ?_, ?_⟩
  · intro hc
    have := hmem _ hc
    omega
  · intro hts
    simp only [check_limit] at hts
    by_cases hcase :
        rateLimitGet tier ≤ (pruneWindow now window).length
    · rw [if_pos hcase] at hts
      exact hmem ts hts
    · rw [if_neg hcase] at hts
      rcases List.mem_append.mp hts with hin | hin
      · exact hmem ts hin
      · have : ts = now := List.mem_singleton.mp hin
        omega

theorem C9_prune_cutoff_witness :
    ((5 : Int) ∈ pruneWindow 6 [5] → (6 : Int) - 5 < 3600) ∧
    ((6 : Int) - 3600) ∉ pruneWindow 6 [5] ∧
    ((5 : Int) ∈ (check_limit [5] "guest" 6).2 → (6 : Int) - 5 < 3600) :=
  C9_prune_cutoff [5] "guest" 6 5

/-- C10: for a user always checked with the same tier, the in-memory
window after any sequence of admission checks started from the empty
window (and more generally from any window already within the bound)
holds at most the tier's configured limit of timestamps; the configured
limits are 10 for "guest", 100 for "user", 1000 for "pro", and 10 for any
unrecognized tier. -/
theorem C10_window_bounded (tier : String) (times : List Int)
    (window : List Int) (hw : window.length ≤ rateLimitGet tier) :
    ((runChecks window tier times).2).length ≤ rateLimitGet tier ∧
    rateLimitGet "guest" = 10 ∧
    rateLimitGet "user" = 100 ∧
    rateLimitGet "pro" = 1000 ∧
    (tier ∉ ["guest", "user", "pro"] → rateLimitGet tier = 10) := by
  refine ⟨?_, by decide, by decide, by decide, ?_⟩
  · induction times generalizing window with
    | nil => exact hw
    | cons now rest ih =>
      simp only [runChecks]
      exact ih _ (check_limit_window_le window tier now hw)
  · intro hmem
    simp only [List.mem_cons, List.not_mem_nil, or_false] at hmem
    push_neg at hmem
    obtain ⟨hg, hu, hp⟩ := hmem
    have hg2 : ("guest" == tier) = false := beq_eq_false_iff_ne.mpr (Ne.symm hg)
    have hu2 : ("user" == tier) = false := beq_eq_false_iff_ne.mpr (Ne.symm hu)
    have hp2 : ("pro" == tier) = false := beq_eq_false_iff_ne.mpr (Ne.symm hp)
    simp [rateLimitGet, RATE_LIMITS, List.find?, hg2, hu2, hp2]

theorem C10_window_bounded_witness :
    (([] : List Int).length ≤ rateLimitGet "guest") ∧
    (((runChecks [] "guest" [0]).2).length ≤ rateLimitGet "guest" ∧
      rateLimitGet "guest" = 10 ∧
      rateLimitGet "user" = 100 ∧
      rateLimitGet "pro" = 1000 ∧
      ("guest" ∉ ["guest", "user", "pro"] → rateLimitGet "guest" = 10)) :=
  ⟨by decide, C10_window_bounded "guest" [0] [] (by decide)⟩
